import Mathlib

/-!
Verification development for the detection-to-structured-row extraction
pipeline of the Medibill repository, embedding `src/utils/rowGrouping.ts`
and `src/utils/billExtraction.ts`.

Modelling conventions:
- JavaScript numbers are rationals (`Rat`);
- a nullable / possibly-absent field is an `Option`;
- the `class` property of a prediction is `Option String` (`none` models a
  record missing the property; the code guards with the truthiness test
  `!prediction.class`, which is also true for the empty string);
- the one reachable runtime failure (a method call on a missing class label
  inside the zero-anchor fallback) is modelled with `Except`;
- `Array.prototype.sort` is modelled as a stable insertion sort, matching
  the stability that ECMAScript requires of `sort`.
-/

namespace Medibill

/- The Batteries rational arithmetic definitions are irreducible by
default; making them semireducible here lets concrete runs of the
embedded pipeline be evaluated by rfl and decide. -/
attribute [local semireducible] Rat.add Rat.sub Rat.mul Rat.inv

/-- listPrefixOf a b is true when list a is an initial segment of list b. -/
def listPrefixOf : List Char → List Char → Bool
  | [], _ => true
  | _ :: _, [] => false
  | a :: as, b :: bs => a == b && listPrefixOf as bs

/-- strContains s pat models JavaScript String.prototype.includes. -/
def strContains (s pat : String) : Bool :=
  (List.range (s.toList.length + 1)).any (fun i => listPrefixOf pat.toList (s.toList.drop i))

/-- strStartsWith s pat models JavaScript String.prototype.startsWith. -/
def strStartsWith (s pat : String) : Bool :=
  listPrefixOf pat.toList s.toList

/-- trimChars models String.prototype.trim on the character list. -/
def trimChars (l : List Char) : List Char :=
  ((l.dropWhile Char.isWhitespace).reverse.dropWhile Char.isWhitespace).reverse

/-- collapseWs models the source regex replacement collapsing every maximal
run of whitespace characters to a single space. -/
def collapseWs : List Char → List Char
  | [] => []
  | [c] => if c.isWhitespace then [' '] else [c]
  | c :: d :: cs =>
    if c.isWhitespace && d.isWhitespace then collapseWs (d :: cs)
    else (if c.isWhitespace then ' ' else c) :: collapseWs (d :: cs)

/-- normalizeClassName from rowGrouping.ts (the identical helper is
duplicated in billExtraction.ts): trim, lower-case, collapse whitespace. -/
def normalizeClassName (className : String) : String :=
  ⟨collapseWs ((trimChars className.toList).map Char.toLower)⟩

/-- insertCmp inserts an element into a list using a JavaScript-style
three-way comparator: the new element goes before the first element it
compares negatively against. -/
def insertCmp (cmp : α → α → Rat) (x : α) : List α → List α
  | [] => [x]
  | y :: ys => if cmp x y < 0 then x :: y :: ys else y :: insertCmp cmp x ys

/-- jsSort models Array.prototype.sort with a comparator: a stable
insertion sort, processing elements left to right.  ECMAScript requires
sort to be stable, and for a consistent comparator every stable sort
produces the same list, so the model is exact there; for an inconsistent
comparator ECMAScript leaves the order implementation-defined, and no
theorem below depends on that case (the claim theorems invoke sorts only
with consistent comparators, with comparators that always return 0, or
on lists of at most two elements with an antisymmetric comparator). -/
def jsSort (cmp : α → α → Rat) (l : List α) : List α :=
  l.foldl (fun acc x => insertCmp cmp x acc) []

/-- Bounding box in image pixel space (interface Prediction.bbox). -/
structure BBox where
  x : Rat
  y : Rat
  width : Rat
  height : Rat
deriving DecidableEq

/-- Input prediction format of rowGrouping.ts.  The cls field embeds the
class property; none models the property being absent at runtime. -/
structure Prediction where
  cls : Option String
  bbox : BBox
  confidence : Rat
  value : Option String
deriving DecidableEq

/-- rawCls gives the class string; a missing class reads as the empty
string (the source only does this under a prior truthiness guard or via
the idiom prediction.class or-empty). -/
def rawCls (p : Prediction) : String :=
  p.cls.getD ""

/-- hasClass models the JavaScript truthiness of prediction.class used by
the partitioning guard: false for a missing class and for the empty
string. -/
def hasClass (p : Prediction) : Bool :=
  match p.cls with
  | none => false
  | some s => s != ""

/-- The five line-item field slots of the output row. -/
inductive Field where
  | medName
  | batchExp
  | quantity
  | hsnCode
  | amount
deriving DecidableEq

/-- Output row format of rowGrouping.ts (all fields nullable strings). -/
structure Row where
  medName : Option String
  batchExp : Option String
  quantity : Option String
  hsnCode : Option String
  amount : Option String
deriving DecidableEq

/-- emptyRow is the all-null row literal used by the source. -/
def emptyRow : Row :=
  ⟨none, none, none, none, none⟩

/-- Row.get reads one field slot. -/
def Row.get (r : Row) : Field → Option String
  | Field.medName => r.medName
  | Field.batchExp => r.batchExp
  | Field.quantity => r.quantity
  | Field.hsnCode => r.hsnCode
  | Field.amount => r.amount

/-- Row.set writes one field slot. -/
def Row.set (r : Row) (f : Field) (v : String) : Row :=
  match f with
  | Field.medName => ⟨some v, r.batchExp, r.quantity, r.hsnCode, r.amount⟩
  | Field.batchExp => ⟨r.medName, some v, r.quantity, r.hsnCode, r.amount⟩
  | Field.quantity => ⟨r.medName, r.batchExp, some v, r.hsnCode, r.amount⟩
  | Field.hsnCode => ⟨r.medName, r.batchExp, r.quantity, some v, r.amount⟩
  | Field.amount => ⟨r.medName, r.batchExp, r.quantity, r.hsnCode, some v⟩

/-- FIELD_MAPPING from rowGrouping.ts, as an ordered association list. -/
def FIELD_MAPPING : List (String × Field) :=
  [("Med Name", Field.medName), ("Batch Exp", Field.batchExp),
   ("Quantity", Field.quantity), ("HSN Code", Field.hsnCode),
   ("Amount", Field.amount)]

/-- isAnchorClass from rowGrouping.ts: the broad medicine-name test. -/
def isAnchorClass (className : String) : Bool :=
  let normalized := normalizeClassName className
  normalized == "med name" ||
  normalized == "medname" ||
  normalized == "medicine name" ||
  normalized == "medicine" ||
  normalized == "med" ||
  normalized == "item" ||
  normalized == "product" ||
  strContains normalized "med name" ||
  strContains normalized "medicine" ||
  strStartsWith normalized "med"

/-- getFieldName from rowGrouping.ts: exact match against FIELD_MAPPING,
then the partial substring matches, in source order. -/
def getFieldName (className : String) : Option Field :=
  let normalized := normalizeClassName className
  match FIELD_MAPPING.find? (fun kv => normalizeClassName kv.1 == normalized) with
  | some kv => some kv.2
  | none =>
    if strContains normalized "med name" || strContains normalized "medname" ||
        strContains normalized "medicine name" then some Field.medName
    else if strContains normalized "batch exp" || strContains normalized "batchexp" then
      some Field.batchExp
    else if strContains normalized "quantity" || normalized == "qty" then
      some Field.quantity
    else if strContains normalized "hsn code" || strContains normalized "hsncode" then
      some Field.hsnCode
    else if strContains normalized "amount" || strContains normalized "price" then
      some Field.amount
    else none

/-- getVerticalCenter from rowGrouping.ts. -/
def getVerticalCenter (bbox : BBox) : Rat :=
  bbox.y + bbox.height / 2

/-- vDist is the absolute vertical-center distance the source computes
inside findNearestAnchor. -/
def vDist (p a : Prediction) : Rat :=
  |getVerticalCenter p.bbox - getVerticalCenter a.bbox|

/-- findNearestAnchor from rowGrouping.ts.  The source starts from
minDistance = Infinity and nearestAnchorY = Infinity, so the first loop
iteration always selects the first anchor (a finite distance is never
within 5 of Infinity, and is smaller than Infinity); the fold therefore
starts from the first anchor and processes the rest. -/
def findNearestAnchor (prediction : Prediction) (anchors : List Prediction) :
    Option Prediction :=
  match anchors with
  | [] => none
  | a0 :: rest =>
    let predCenter := getVerticalCenter prediction.bbox
    let st0 := (a0, |predCenter - getVerticalCenter a0.bbox|, getVerticalCenter a0.bbox)
    let final := rest.foldl (fun (st : Prediction × Rat × Rat) anchor =>
      let minDistance := st.2.1
      let nearestAnchorY := st.2.2
      let anchorCenter := getVerticalCenter anchor.bbox
      let distance := |predCenter - anchorCenter|
      if |distance - minDistance| < 5 then
        if anchorCenter < nearestAnchorY then (anchor, distance, anchorCenter) else st
      else if distance < minDistance then (anchor, distance, anchorCenter)
      else st) st0
    some final.1

/-- anchorsOf is the anchor side of the partitioning loop: predictions
with a truthy class that isAnchorClass accepts, in input order. -/
def anchorsOf (predictions : List Prediction) : List Prediction :=
  predictions.filter (fun p => hasClass p && isAnchorClass (rawCls p))

/-- nonAnchorsOf is the other side of the partitioning loop. -/
def nonAnchorsOf (predictions : List Prediction) : List Prediction :=
  predictions.filter (fun p => hasClass p && !isAnchorClass (rawCls p))

/-- centerCmp is the comparator of the anchor sort (aCenter - bCenter). -/
def centerCmp (a b : Prediction) : Rat :=
  getVerticalCenter a.bbox - getVerticalCenter b.bbox

/-- sortedAnchorsOf is the anchor list sorted by vertical center. -/
def sortedAnchorsOf (predictions : List Prediction) : List Prediction :=
  jsSort centerCmp (anchorsOf predictions)

/-- seedRow builds the row pre-seeded with the synthetic medicine-name
placeholder for 1-indexed position n. -/
def seedRow (n : Nat) : Row :=
  ⟨some ("Medicine " ++ toString n), none, none, none, none⟩

/-- nearestIdx gives the row index a non-anchor prediction is assigned to.
The source keys its grouping maps by anchor object identity; because the
anchors are sorted by center first, value-identical anchors are adjacent
and findNearestAnchor always keeps the first of them, so the index of the
first value-equal anchor is the identity the source uses. -/
def nearestIdx (p : Prediction) (anchors : List Prediction) : Option Nat :=
  (findNearestAnchor p anchors).bind fun a => anchors.findIdx? (fun b => decide (b = a))

/-- bucketOf collects, in input order, the non-anchor predictions whose
nearest anchor is the one at index i of the sorted anchor list. -/
def bucketOf (predictions : List Prediction) (i : Nat) : List Prediction :=
  (nonAnchorsOf predictions).filter
    (fun p => nearestIdx p (sortedAnchorsOf predictions) == some i)

/-- confPosCmp is the comparator used for multiple predictions of one
field: confidence descending, with positions within 0.01 falling back to
the leftmost x. -/
def confPosCmp (a b : Prediction) : Rat :=
  let confDiff := b.confidence - a.confidence
  if |confDiff| > 1 / 100 then confDiff else a.bbox.x - b.bbox.x

/-- pickFieldWinner sorts the field candidates with confPosCmp and takes
the head, as the source does with fieldPredictions.sort then index 0. -/
def pickFieldWinner (cands : List Prediction) : Option Prediction :=
  (jsSort confPosCmp cands).head?

/-- placeholderValue is the slot-specific default the source substitutes
when the winner carries no usable value. -/
def placeholderValue (f : Field) (winner : Prediction) : String :=
  match f with
  | Field.quantity => "1"
  | Field.amount => "0"
  | Field.hsnCode => "3004"
  | _ => rawCls winner

/-- fillValue models the if-chain on prediction.value: the value is used
only when it is truthy (present and non-empty), otherwise the slot
placeholder applies. -/
def fillValue (f : Field) (winner : Prediction) : String :=
  match winner.value with
  | some v => if v = "" then placeholderValue f winner else v
  | none => placeholderValue f winner

/-- fieldPriority list from the source fill loop. -/
def fieldPriorityList : List Field :=
  [Field.medName, Field.batchExp, Field.quantity, Field.hsnCode, Field.amount]

/-- fillStep performs one iteration of the fill loop for one field slot:
medName is skipped, otherwise the winner among this slot's candidates is
chosen and written. -/
def fillStep (assigned : List Prediction) (r : Row) (f : Field) : Row :=
  if f = Field.medName then r
  else
    match pickFieldWinner (assigned.filter (fun p => decide (getFieldName (rawCls p) = some f))) with
    | none => r
    | some w => Row.set r f (fillValue f w)

/-- fillRowFromPreds fills one row from its assigned predictions, walking
the field priority list. -/
def fillRowFromPreds (row : Row) (assigned : List Prediction) : Row :=
  fieldPriorityList.foldl (fillStep assigned) row

/-- filledRowsOf builds and fills one row per sorted anchor. -/
def filledRowsOf (predictions : List Prediction) : List Row :=
  (List.range (sortedAnchorsOf predictions).length).map
    (fun i => fillRowFromPreds (seedRow (i + 1)) (bucketOf predictions i))

/-- finalCmp is the comparator of the trailing rows.sort: it looks up an
anchor whose class string equals the row medName (strict equality, so a
null medName matches nothing) and compares centers, returning 0 whenever
either lookup fails. -/
def finalCmp (anchors : List Prediction) (a b : Row) : Rat :=
  match anchors.find? (fun anc => decide (anc.cls = a.medName)),
      anchors.find? (fun anc => decide (anc.cls = b.medName)) with
  | some x, some y => getVerticalCenter x.bbox - getVerticalCenter y.bbox
  | _, _ => 0

/-- normalRows is the whole at-least-one-anchor path of groupByRowCaptain:
seed, assign, fill, then the final sort. -/
def normalRows (predictions : List Prediction) : List Row :=
  jsSort (finalCmp (sortedAnchorsOf predictions)) (filledRowsOf predictions)

/-- setIfNull models the first-writer-wins slot write of the zero-anchor
fallback. -/
def setIfNull (row : Row) (f : Field) (v : String) : Row :=
  if (Row.get row f).isNone then Row.set row f v else row

/-- fallbackApply is one iteration of the zero-anchor fallback loop, for a
prediction whose class property is present. -/
def fallbackApply (row : Row) (p : Prediction) : Row :=
  match getFieldName (rawCls p) with
  | some f => setIfNull row f (rawCls p)
  | none => row

/-- fallbackStep is the effectful form of the fallback iteration: the
source calls getFieldName(prediction.class) on the ORIGINAL prediction
list, so a missing class reaches className.trim() inside
normalizeClassName and throws. -/
def fallbackStep (row : Row) (p : Prediction) : Except String Row :=
  match p.cls with
  | none => Except.error "TypeError: undefined has no method trim"
  | some c =>
    Except.ok (match getFieldName c with
      | some f => setIfNull row f c
      | none => row)

/-- groupByRowCaptain from rowGrouping.ts.  Empty input returns the empty
list; with no anchors the fallback folds over the full original input;
otherwise the normal seeded/sorted path runs. -/
def groupByRowCaptain (predictions : List Prediction) : Except String (List Row) :=
  if predictions.isEmpty then Except.ok []
  else if (anchorsOf predictions).isEmpty then
    (predictions.foldlM fallbackStep emptyRow).map (fun row => [row])
  else
    Except.ok (normalRows predictions)

/-- The six bill metadata slots of billExtraction.ts. -/
inductive MetaField where
  | customerName
  | customerPhone
  | customerAddress
  | billNumber
  | billDate
  | doctorName
deriving DecidableEq

/-- BillMetadata output structure (all fields nullable strings). -/
structure BillMetadata where
  customerName : Option String
  customerPhone : Option String
  customerAddress : Option String
  billNumber : Option String
  billDate : Option String
  doctorName : Option String
deriving DecidableEq

/-- emptyMetadata is the all-null metadata literal. -/
def emptyMetadata : BillMetadata :=
  ⟨none, none, none, none, none, none⟩

/-- BillMetadata.get reads one metadata slot. -/
def BillMetadata.get (m : BillMetadata) : MetaField → Option String
  | MetaField.customerName => m.customerName
  | MetaField.customerPhone => m.customerPhone
  | MetaField.customerAddress => m.customerAddress
  | MetaField.billNumber => m.billNumber
  | MetaField.billDate => m.billDate
  | MetaField.doctorName => m.doctorName

/-- BillMetadata.set writes one metadata slot. -/
def BillMetadata.set (m : BillMetadata) (f : MetaField) (v : String) : BillMetadata :=
  match f with
  | MetaField.customerName => ⟨some v, m.customerPhone, m.customerAddress, m.billNumber, m.billDate, m.doctorName⟩
  | MetaField.customerPhone => ⟨m.customerName, some v, m.customerAddress, m.billNumber, m.billDate, m.doctorName⟩
  | MetaField.customerAddress => ⟨m.customerName, m.customerPhone, some v, m.billNumber, m.billDate, m.doctorName⟩
  | MetaField.billNumber => ⟨m.customerName, m.customerPhone, m.customerAddress, some v, m.billDate, m.doctorName⟩
  | MetaField.billDate => ⟨m.customerName, m.customerPhone, m.customerAddress, m.billNumber, some v, m.doctorName⟩
  | MetaField.doctorName => ⟨m.customerName, m.customerPhone, m.customerAddress, m.billNumber, m.billDate, some v⟩

/-- metadataPatterns is the METADATA_CLASSES table of billExtraction.ts. -/
def metadataPatterns : MetaField → List String
  | MetaField.customerName => ["customer name", "customer", "name", "patient name", "patient"]
  | MetaField.customerPhone => ["phone", "mobile", "contact", "phone number", "mobile number"]
  | MetaField.customerAddress => ["address", "location", "residence"]
  | MetaField.billNumber => ["bill number", "bill no", "invoice number", "invoice no", "bill no."]
  | MetaField.billDate => ["date", "bill date", "invoice date", "dated"]
  | MetaField.doctorName => ["doctor", "doctor name", "prescribed by", "dr."]

/-- metaFieldOrder is the Object.keys order of the metadata literal, which
the first-match break loop walks. -/
def metaFieldOrder : List MetaField :=
  [MetaField.customerName, MetaField.customerPhone, MetaField.customerAddress,
   MetaField.billNumber, MetaField.billDate, MetaField.doctorName]

/-- matchesMetadataField from billExtraction.ts: any pattern of the field
is a substring of the normalized class name. -/
def matchesMetadataField (className : String) (f : MetaField) : Bool :=
  (metadataPatterns f).any (fun pattern => strContains (normalizeClassName className) pattern)

/-- isMedicineRelated is the skip test both extractMetadata and
filterMedicinePredictions spell out: the normalized label contains one of
the five canonical line-item substrings. -/
def isMedicineRelated (className : String) : Bool :=
  strContains (normalizeClassName className) "med name" ||
  strContains (normalizeClassName className) "batch exp" ||
  strContains (normalizeClassName className) "quantity" ||
  strContains (normalizeClassName className) "hsn code" ||
  strContains (normalizeClassName className) "amount"

/-- metaStep is one iteration of the extractMetadata scan: skip
medicine-related labels, otherwise fill the first still-null matching
field (the inner loop breaks after the first match). -/
def metaStep (m : BillMetadata) (p : Prediction) : BillMetadata :=
  let className := rawCls p
  if isMedicineRelated className then m
  else
    match metaFieldOrder.find? (fun f => (BillMetadata.get m f).isNone && matchesMetadataField className f) with
    | some f => BillMetadata.set m f className
    | none => m

/-- confDescCmp is the confidence-descending comparator of the metadata
scan sort. -/
def confDescCmp (a b : Prediction) : Rat :=
  b.confidence - a.confidence

/-- extractMetadata from billExtraction.ts. -/
def extractMetadata (predictions : List Prediction) : BillMetadata :=
  (jsSort confDescCmp predictions).foldl metaStep emptyMetadata

/-- keepMedicineClass is the filter predicate of
filterMedicinePredictions, on the class string. -/
def keepMedicineClass (cls : String) : Bool :=
  let className := normalizeClassName cls
  if strContains className "med name" || strContains className "batch exp" ||
      strContains className "quantity" || strContains className "hsn code" ||
      strContains className "amount" then true
  else if metaFieldOrder.any (fun f => (metadataPatterns f).any (fun pattern => strContains className pattern)) then
    false
  else true

/-- filterMedicinePredictions from billExtraction.ts. -/
def filterMedicinePredictions (predictions : List Prediction) : List Prediction :=
  predictions.filter (fun pred => keepMedicineClass (rawCls pred))

/-- Raw input record of extractBillData / convertToBboxFormat: flat
coordinates, optional width, height, confidence and value, and a class
string required by the interface. -/
structure RawPrediction where
  cls : String
  x : Rat
  y : Rat
  width : Option Rat
  height : Option Rat
  confidence : Option Rat
  value : Option String
deriving DecidableEq

/-- convertToBboxFormat from rowGrouping.ts: the pure reshape with
defaulting (width, height, confidence default 0). -/
def convertToBboxFormat (predictions : List RawPrediction) : List Prediction :=
  predictions.map (fun pred =>
    ⟨some pred.cls, ⟨pred.x, pred.y, pred.width.getD 0, pred.height.getD 0⟩,
      pred.confidence.getD 0, pred.value⟩)

/-- ExtractedBillData output structure of billExtraction.ts. -/
structure ExtractedBillData where
  medicines : List Row
  metadata : BillMetadata
  totalMedicines : Nat
deriving DecidableEq

/-- extractBillData from billExtraction.ts: metadata first, then the
medicine-only filter, row grouping, and the null-name row filter. -/
def extractBillData (predictions : List RawPrediction) : Except String ExtractedBillData :=
  let predictionsWithBbox := convertToBboxFormat predictions
  let metadata := extractMetadata predictionsWithBbox
  let medicinePredictions := filterMedicinePredictions predictionsWithBbox
  (groupByRowCaptain medicinePredictions).map (fun medicines =>
    let validMedicines := medicines.filter (fun row => row.medName.isSome)
    ⟨validMedicines, metadata, validMedicines.length⟩)

/-! Lemmas about the stable sort model. -/

theorem insertCmp_perm (cmp : α → α → Rat) (x : α) (l : List α) :
    List.Perm (insertCmp cmp x l) (x :: l) := by
  induction l with
  | nil => exact List.Perm.refl _
  | cons y ys ih =>
    simp only [insertCmp]
    split
    · exact List.Perm.refl _
    · exact (List.Perm.cons y ih).trans (List.Perm.swap x y ys)

theorem foldl_insertCmp_perm (cmp : α → α → Rat) (l : List α) :
    ∀ acc : List α, List.Perm (l.foldl (fun acc x => insertCmp cmp x acc) acc) (acc ++ l) := by
  induction l with
  | nil => intro acc; simp
  | cons x xs ih =>
    intro acc
    rw [List.foldl_cons]
    refine (ih (insertCmp cmp x acc)).trans ?_
    refine (List.Perm.append_right xs (insertCmp_perm cmp x acc)).trans ?_
    simp only [List.cons_append]
    exact List.perm_middle.symm

theorem jsSort_perm (cmp : α → α → Rat) (l : List α) : List.Perm (jsSort cmp l) l := by
  simpa using foldl_insertCmp_perm cmp l []

theorem jsSort_length (cmp : α → α → Rat) (l : List α) :
    (jsSort cmp l).length = l.length :=
  (jsSort_perm cmp l).length_eq

theorem insertCmp_eq_append (cmp : α → α → Rat) (x : α) (l : List α)
    (h : ∀ y ∈ l, ¬ cmp x y < 0) :
    insertCmp cmp x l = l ++ [x] := by
  induction l with
  | nil => rfl
  | cons y ys ih =>
    simp only [insertCmp]
    rw [if_neg (h y (List.mem_cons_self y ys))]
    rw [ih (fun z hz => h z (List.mem_cons_of_mem y hz))]
    rfl

theorem foldl_insertCmp_eq_append (cmp : α → α → Rat) (l : List α) :
    ∀ acc : List α, (∀ x ∈ l, ∀ y ∈ acc ++ l, ¬ cmp x y < 0) →
      l.foldl (fun acc x => insertCmp cmp x acc) acc = acc ++ l := by
  induction l with
  | nil => intro acc _; simp
  | cons x xs ih =>
    intro acc h
    rw [List.foldl_cons]
    rw [show insertCmp cmp x acc = acc ++ [x] from
      insertCmp_eq_append cmp x acc
        (fun y hy => h x (List.mem_cons_self x xs) y (List.mem_append.mpr (Or.inl hy)))]
    rw [ih (acc ++ [x]) ?_]
    · simp
    · intro a ha y hy
      apply h a (List.mem_cons_of_mem x ha)
      simp only [List.mem_append, List.mem_cons, List.mem_singleton] at hy ⊢
      tauto

theorem jsSort_eq_self (cmp : α → α → Rat) (l : List α)
    (h : ∀ x ∈ l, ∀ y ∈ l, ¬ cmp x y < 0) : jsSort cmp l = l := by
  simpa [jsSort] using foldl_insertCmp_eq_append cmp l [] (by simpa using h)

theorem insertCmp_pairwise_key (cmp : α → α → Rat) (key : α → Rat)
    (hk : ∀ a b, cmp a b = key a - key b) (x : α) (l : List α)
    (h : l.Pairwise (fun a b => key a ≤ key b)) :
    (insertCmp cmp x l).Pairwise (fun a b => key a ≤ key b) := by
  induction l with
  | nil => simp [insertCmp]
  | cons y ys ih =>
    simp only [insertCmp]
    split
    · rename_i hlt
      rw [hk] at hlt
      have hxy : key x ≤ key y := by linarith
      refine List.Pairwise.cons ?_ h
      intro z hz
      rcases List.mem_cons.mp hz with rfl | hz2
      · exact hxy
      · exact le_trans hxy (List.rel_of_pairwise_cons h hz2)
    · rename_i hge
      rw [hk] at hge
      have hyx : key y ≤ key x := by
        by_contra hc
        push_neg at hc
        exact hge (by linarith)
      refine List.Pairwise.cons ?_ (ih (List.Pairwise.of_cons h))
      intro z hz
      rcases List.mem_cons.mp ((insertCmp_perm cmp x ys).mem_iff.mp hz) with rfl | hz3
      · exact hyx
      · exact List.rel_of_pairwise_cons h hz3

theorem foldl_insertCmp_pairwise_key (cmp : α → α → Rat) (key : α → Rat)
    (hk : ∀ a b, cmp a b = key a - key b) (l : List α) :
    ∀ acc : List α, acc.Pairwise (fun a b => key a ≤ key b) →
      (l.foldl (fun acc x => insertCmp cmp x acc) acc).Pairwise (fun a b => key a ≤ key b) := by
  induction l with
  | nil => intro acc h; simpa using h
  | cons x xs ih =>
    intro acc h
    rw [List.foldl_cons]
    exact ih _ (insertCmp_pairwise_key cmp key hk x acc h)

theorem jsSort_pairwise_key (cmp : α → α → Rat) (key : α → Rat)
    (hk : ∀ a b, cmp a b = key a - key b) (l : List α) :
    (jsSort cmp l).Pairwise (fun a b => key a ≤ key b) :=
  foldl_insertCmp_pairwise_key cmp key hk l [] List.Pairwise.nil

/-! Lemmas about row and metadata slot access. -/

theorem row_get_set_same (r : Row) (f : Field) (v : String) :
    Row.get (Row.set r f v) f = some v := by
  cases f <;> rfl

theorem row_get_set_ne (r : Row) (f g : Field) (v : String) (h : g ≠ f) :
    Row.get (Row.set r f v) g = Row.get r g := by
  cases f <;> cases g <;> first | rfl | exact absurd rfl h

theorem Row.get_emptyRow (f : Field) : Row.get emptyRow f = none := by
  cases f <;> rfl

theorem Row.set_medName_of_ne (r : Row) (f : Field) (v : String) (h : f ≠ Field.medName) :
    (Row.set r f v).medName = r.medName := by
  cases f
  · exact absurd rfl h
  all_goals rfl

theorem meta_get_set_same (m : BillMetadata) (f : MetaField) (v : String) :
    BillMetadata.get (BillMetadata.set m f v) f = some v := by
  cases f <;> rfl

theorem meta_get_set_ne (m : BillMetadata) (f g : MetaField) (v : String) (h : g ≠ f) :
    BillMetadata.get (BillMetadata.set m f v) g = BillMetadata.get m g := by
  cases f <;> cases g <;> first | rfl | exact absurd rfl h

theorem BillMetadata.get_emptyMetadata (f : MetaField) :
    BillMetadata.get emptyMetadata f = none := by
  cases f <;> rfl

/-! Lemmas about the fill loop of the normal path. -/

theorem fillStep_medName (assigned : List Prediction) (r : Row) (f : Field) :
    (fillStep assigned r f).medName = r.medName := by
  by_cases h : f = Field.medName
  · simp [fillStep, h]
  · simp only [fillStep, if_neg h]
    split
    · rfl
    · exact Row.set_medName_of_ne r f _ h

theorem foldl_fillStep_medName (assigned : List Prediction) (l : List Field) (row : Row) :
    (l.foldl (fillStep assigned) row).medName = row.medName := by
  induction l generalizing row with
  | nil => rfl
  | cons f fs ih => rw [List.foldl_cons, ih, fillStep_medName]

theorem fillRow_medName (row : Row) (assigned : List Prediction) :
    (fillRowFromPreds row assigned).medName = row.medName :=
  foldl_fillStep_medName assigned fieldPriorityList row

theorem filledRowsOf_map_medName (preds : List Prediction) :
    (filledRowsOf preds).map Row.medName =
      (List.range (anchorsOf preds).length).map
        (fun i => some ("Medicine " ++ toString (i + 1))) := by
  have hlen : (sortedAnchorsOf preds).length = (anchorsOf preds).length :=
    (jsSort_perm centerCmp (anchorsOf preds)).length_eq
  unfold filledRowsOf
  rw [List.map_map]
  have hfun : (Row.medName ∘ fun i => fillRowFromPreds (seedRow (i + 1)) (bucketOf preds i)) =
      fun i => some ("Medicine " ++ toString (i + 1)) := by
    funext i
    simp [Function.comp, fillRow_medName, seedRow]
  rw [hfun, hlen]

theorem mem_filledRowsOf (preds : List Prediction) (x : Row) (hx : x ∈ filledRowsOf preds) :
    ∃ i, i < (sortedAnchorsOf preds).length ∧
      x.medName = some ("Medicine " ++ toString (i + 1)) := by
  unfold filledRowsOf at hx
  rcases List.mem_map.mp hx with ⟨i, hi, rfl⟩
  exact ⟨i, List.mem_range.mp hi, by rw [fillRow_medName]; rfl⟩

theorem groupByRowCaptain_normal (preds : List Prediction) (h1 : anchorsOf preds ≠ []) :
    groupByRowCaptain preds = Except.ok (normalRows preds) := by
  have hne : preds ≠ [] := by
    intro h
    apply h1
    rw [h]
    rfl
  have hp : preds.isEmpty = false := by
    cases preds
    · exact absurd rfl hne
    · rfl
  have ha : (anchorsOf preds).isEmpty = false := by
    rcases hA : anchorsOf preds with _ | ⟨x, xs⟩
    · exact absurd hA h1
    · rfl
  simp [groupByRowCaptain, hp, ha]

/-! Lemmas about the zero-anchor fallback loop. -/

theorem foldlM_fallback_ok (l : List Prediction) (row : Row)
    (h : ∀ p ∈ l, p.cls ≠ none) :
    l.foldlM fallbackStep row = Except.ok (l.foldl fallbackApply row) := by
  induction l generalizing row with
  | nil => rfl
  | cons p ps ih =>
    obtain ⟨c, hc⟩ : ∃ c, p.cls = some c := by
      cases hcl : p.cls
      · exact absurd hcl (h p (List.mem_cons_self p ps))
      · exact ⟨_, rfl⟩
    have hstep : fallbackStep row p = Except.ok (fallbackApply row p) := by
      simp [fallbackStep, fallbackApply, rawCls, hc]
    calc (p :: ps).foldlM fallbackStep row
        = fallbackStep row p >>= fun r => ps.foldlM fallbackStep r := by rfl
      _ = ps.foldlM fallbackStep (fallbackApply row p) := by rw [hstep]; rfl
      _ = Except.ok (ps.foldl fallbackApply (fallbackApply row p)) :=
          ih _ (fun q hq => h q (List.mem_cons_of_mem p hq))
      _ = Except.ok ((p :: ps).foldl fallbackApply row) := by rw [List.foldl_cons]

theorem foldl_fallbackApply_get (l : List Prediction) (row : Row) (f : Field) :
    Row.get (l.foldl fallbackApply row) f =
      match Row.get row f with
      | some v => some v
      | none => (l.find? (fun p => decide (getFieldName (rawCls p) = some f))).map rawCls := by
  induction l generalizing row with
  | nil => cases hrow : Row.get row f <;> simp [hrow]
  | cons p ps ih =>
    rw [List.foldl_cons, ih]
    rcases hgf : getFieldName (rawCls p) with _ | f0
    · have happ : fallbackApply row p = row := by simp [fallbackApply, hgf]
      rw [happ, List.find?_cons_of_neg _ (by simp [hgf])]
    · have happ : fallbackApply row p = setIfNull row f0 (rawCls p) := by
        simp [fallbackApply, hgf]
      by_cases hff : f0 = f
      · subst hff
        rw [List.find?_cons_of_pos _ (by simp [hgf])]
        rcases hrow : Row.get row f0 with _ | v
        · have hget : Row.get (fallbackApply row p) f0 = some (rawCls p) := by
            rw [happ]
            simp [setIfNull, hrow, row_get_set_same]
          rw [hget]
          rfl
        · have hget : Row.get (fallbackApply row p) f0 = some v := by
            rw [happ]
            simp [setIfNull, hrow]
          rw [hget]
      · have hget : Row.get (fallbackApply row p) f = Row.get row f := by
          rw [happ]
          unfold setIfNull
          split
          · exact row_get_set_ne row f0 f (rawCls p) (fun hcontra => hff hcontra.symm)
          · rfl
        rw [hget, List.find?_cons_of_neg _ (by simp [hgf, hff])]

/-! Lemmas about the metadata scan. -/

theorem metaStep_preserves (m : BillMetadata) (p : Prediction) (f : MetaField) (v : String)
    (h : BillMetadata.get m f = some v) :
    BillMetadata.get (metaStep m p) f = some v := by
  simp only [metaStep]
  split
  · exact h
  · split
    · rename_i f0 hfind
      have hp := List.find?_some hfind
      simp only [Bool.and_eq_true, Option.isNone_iff_eq_none] at hp
      by_cases hff : f = f0
      · subst hff
        rw [h] at hp
        exact absurd hp.1 (by simp)
      · rw [meta_get_set_ne m f0 f _ hff]
        exact h
    · exact h

theorem foldl_metaStep_preserves (l : List Prediction) (m : BillMetadata) (f : MetaField)
    (v : String) (h : BillMetadata.get m f = some v) :
    BillMetadata.get (l.foldl metaStep m) f = some v := by
  induction l generalizing m with
  | nil => exact h
  | cons p ps ih => exact ih _ (metaStep_preserves m p f v h)

theorem foldl_metaStep_origin (l : List Prediction) (m : BillMetadata) (f : MetaField)
    (v : String) (h : BillMetadata.get (l.foldl metaStep m) f = some v) :
    BillMetadata.get m f = some v ∨
      ∃ p ∈ l, rawCls p = v ∧ isMedicineRelated (rawCls p) = false ∧
        matchesMetadataField (rawCls p) f = true := by
  induction l generalizing m with
  | nil => exact Or.inl h
  | cons p ps ih =>
    rw [List.foldl_cons] at h
    rcases ih (metaStep m p) h with hm | ⟨q, hq, hrest⟩
    · simp only [metaStep] at hm
      by_cases hmed : isMedicineRelated (rawCls p) = true
      · rw [if_pos hmed] at hm
        exact Or.inl hm
      · have hmedf : isMedicineRelated (rawCls p) = false := by
          cases hx : isMedicineRelated (rawCls p)
          · rfl
          · exact absurd hx hmed
        rw [if_neg hmed] at hm
        rcases hfind : metaFieldOrder.find?
            (fun f1 => (BillMetadata.get m f1).isNone && matchesMetadataField (rawCls p) f1)
            with _ | f0
        · rw [hfind] at hm
          exact Or.inl hm
        · rw [hfind] at hm
          have hp := List.find?_some hfind
          simp only [Bool.and_eq_true] at hp
          by_cases hff : f = f0
          · subst hff
            rw [meta_get_set_same] at hm
            exact Or.inr ⟨p, List.mem_cons_self p ps, Option.some_inj.mp hm, hmedf, hp.2⟩
          · rw [meta_get_set_ne m f0 f _ hff] at hm
            exact Or.inl hm
    · exact Or.inr ⟨q, List.mem_cons_of_mem p hq, hrest⟩

theorem mem_metaFieldOrder (f : MetaField) : f ∈ metaFieldOrder := by
  cases f <;> simp [metaFieldOrder]

theorem keepMedicineClass_eq_false (s : String) (f : MetaField)
    (h1 : isMedicineRelated s = false) (h2 : matchesMetadataField s f = true) :
    keepMedicineClass s = false := by
  simp only [keepMedicineClass]
  rw [if_neg ?hmed]
  case hmed =>
    unfold isMedicineRelated at h1
    simp [h1]
  rw [if_pos ?hmatch]
  case hmatch =>
    apply List.any_eq_true.mpr
    refine ⟨f, mem_metaFieldOrder f, ?_⟩
    unfold matchesMetadataField at h2
    exact h2

/-! Claim theorems. -/

/-- Claim C1, counterexample: two anchors whose raw class labels are the
strings "Medicine 2" (top, vertical center 10) and "Medicine 1" (bottom,
vertical center 100).  The trailing rows.sort matches anchor class labels
against the synthetic placeholder names, so the row seeded from the top
anchor (medName "Medicine 1") is emitted LAST: the output is in
descending, not ascending, order of the corresponding anchor centers. -/
theorem c1_counterexample :
    groupByRowCaptain
        [⟨some "Medicine 2", ⟨0, 10, 0, 0⟩, 1, none⟩,
         ⟨some "Medicine 1", ⟨0, 100, 0, 0⟩, 1, none⟩] =
      Except.ok
        [⟨some "Medicine 2", none, none, none, none⟩,
         ⟨some "Medicine 1", none, none, none, none⟩] := by
  rfl

/-- Claim C1 (amended): for input with at least one anchor,
groupByRowCaptain succeeds and the row count equals the anchor count
unconditionally; the sorted anchor list is ascending by vertical center
and is a permutation of the anchors found in the input; and, provided no
anchor raw class label collides with a synthetic placeholder name
"Medicine N" (N up to the anchor count), row i carries the placeholder
name "Medicine i+1" in order, so the rows follow the ascending sorted
anchor order. -/
theorem c1_ordering (preds : List Prediction)
    (h1 : anchorsOf preds ≠ []) :
    ∃ rows, groupByRowCaptain preds = Except.ok rows ∧
      rows.length = (anchorsOf preds).length ∧
      (sortedAnchorsOf preds).Pairwise
        (fun a b => getVerticalCenter a.bbox ≤ getVerticalCenter b.bbox) ∧
      List.Perm (sortedAnchorsOf preds) (anchorsOf preds) ∧
      ((∀ a ∈ anchorsOf preds, ∀ k, k < (anchorsOf preds).length →
          a.cls ≠ some ("Medicine " ++ toString (k + 1))) →
        rows.map Row.medName = (List.range (anchorsOf preds).length).map
          (fun i => some ("Medicine " ++ toString (i + 1)))) := by
  have hlen : (sortedAnchorsOf preds).length = (anchorsOf preds).length :=
    (jsSort_perm centerCmp (anchorsOf preds)).length_eq
  have hfillen : (filledRowsOf preds).length = (anchorsOf preds).length := by
    unfold filledRowsOf
    simp [hlen]
  refine ⟨normalRows preds, groupByRowCaptain_normal preds h1, ?_, ?_,
    jsSort_perm centerCmp (anchorsOf preds), ?_⟩
  · calc (normalRows preds).length
        = (filledRowsOf preds).length :=
          jsSort_length (finalCmp (sortedAnchorsOf preds)) (filledRowsOf preds)
      _ = (anchorsOf preds).length := hfillen
  · exact jsSort_pairwise_key centerCmp (fun p => getVerticalCenter p.bbox)
      (fun a b => rfl) (anchorsOf preds)
  · intro h2
    have hzero : ∀ x ∈ filledRowsOf preds, ∀ y ∈ filledRowsOf preds,
        finalCmp (sortedAnchorsOf preds) x y = 0 := by
      intro x hx y hy
      rcases mem_filledRowsOf preds x hx with ⟨i, hi, hxm⟩
      have hfind : (sortedAnchorsOf preds).find?
          (fun anc => decide (anc.cls = x.medName)) = none := by
        rw [List.find?_eq_none]
        intro anc hanc
        have hmem : anc ∈ anchorsOf preds :=
          (jsSort_perm centerCmp (anchorsOf preds)).mem_iff.mp hanc
        simp only [decide_eq_true_eq]
        rw [hxm]
        exact h2 anc hmem i (hlen ▸ hi)
      unfold finalCmp
      rw [hfind]
    have hnr : normalRows preds = filledRowsOf preds := by
      unfold normalRows
      apply jsSort_eq_self
      intro x hx y hy
      rw [hzero x hx y hy]
      simp
    rw [hnr]
    exact filledRowsOf_map_medName preds

/-- Claim C1 witness: one "Med Name" anchor satisfies the hypothesis and
the conclusion follows by applying the theorem. -/
theorem c1_ordering_witness :
    (anchorsOf [(⟨some "Med Name", ⟨0, 0, 0, 0⟩, 1, none⟩ : Prediction)] ≠ []) ∧
    ∃ rows, groupByRowCaptain [(⟨some "Med Name", ⟨0, 0, 0, 0⟩, 1, none⟩ : Prediction)] =
      Except.ok rows := by
  refine ⟨by decide, ?_⟩
  obtain ⟨rows, hok, _⟩ := c1_ordering
    [(⟨some "Med Name", ⟨0, 0, 0, 0⟩, 1, none⟩ : Prediction)] (by decide)
  exact ⟨rows, hok⟩

/-- Claim C2, counterexample: a non-anchor detection with class
"quantity medname" classifies to the medicineName slot, is assigned to
the single anchor row and carries extracted value "Paracetamol"; yet the
fill loop skips the medName slot unconditionally, so the row keeps the
placeholder "Medicine 1" - the placeholder is NOT overwritten. -/
theorem c2_counterexample :
    groupByRowCaptain
        [⟨some "Med Name", ⟨0, 0, 0, 0⟩, 1, none⟩,
         ⟨some "quantity medname", ⟨0, 0, 0, 0⟩, 9 / 10, some "Paracetamol"⟩] =
      Except.ok [⟨some "Medicine 1", none, none, none, none⟩] := by
  rfl

/-- Claim C2 (amended): with at least one anchor the output medicine
names are exactly the synthetic placeholders "Medicine 1" .. "Medicine n"
(as a permutation, one per anchor); no assigned detection value ever
replaces them. -/
theorem c2_placeholder_names (preds : List Prediction) (h1 : anchorsOf preds ≠ []) :
    ∃ rows, groupByRowCaptain preds = Except.ok rows ∧
      List.Perm (rows.map Row.medName)
        ((List.range (anchorsOf preds).length).map
          (fun i => some ("Medicine " ++ toString (i + 1)))) := by
  refine ⟨normalRows preds, groupByRowCaptain_normal preds h1, ?_⟩
  have hmap := (jsSort_perm (finalCmp (sortedAnchorsOf preds)) (filledRowsOf preds)).map Row.medName
  rw [filledRowsOf_map_medName preds] at hmap
  exact hmap

/-- Claim C2 witness: a single anchor input, theorem applied directly. -/
theorem c2_placeholder_names_witness :
    (anchorsOf [(⟨some "Med Name", ⟨0, 5, 0, 0⟩, 1, none⟩ : Prediction)] ≠ []) ∧
    ∃ rows, groupByRowCaptain [(⟨some "Med Name", ⟨0, 5, 0, 0⟩, 1, none⟩ : Prediction)] =
      Except.ok rows := by
  refine ⟨by decide, ?_⟩
  obtain ⟨rows, hok, _⟩ := c2_placeholder_names
    [(⟨some "Med Name", ⟨0, 5, 0, 0⟩, 1, none⟩ : Prediction)] (by decide)
  exact ⟨rows, hok⟩

/-- Claim C3 (code bug): groupByRowCaptain does return the empty list on
empty input, but on a non-empty zero-anchor input holding a detection
with a missing class it raises a TypeError instead of skipping it: the
zero-anchor fallback iterates the ORIGINAL input and calls getFieldName
on the missing class label. -/
theorem c3_behavior :
    groupByRowCaptain [] = Except.ok [] ∧
    groupByRowCaptain [⟨none, ⟨0, 0, 0, 0⟩, 0, none⟩] =
      Except.error "TypeError: undefined has no method trim" :=
  ⟨rfl, rfl⟩

/-- Claim C4: for a two-anchor list, a candidate whose distance is within
5 of the current best yields the anchor with the smaller vertical center
(the one above), otherwise the strictly nearer anchor wins; and in the
concrete scenario of the claim (anchors at centers 100 and 106, one
Quantity detection at center 103) the detection is assigned to the
anchor at center 100, whose row receives the quantity placeholder. -/
theorem c4_nearest_assignment :
    (∀ (p a b : Prediction),
      (|vDist p b - vDist p a| < 5 →
        (getVerticalCenter b.bbox < getVerticalCenter a.bbox →
          findNearestAnchor p [a, b] = some b) ∧
        (getVerticalCenter a.bbox ≤ getVerticalCenter b.bbox →
          findNearestAnchor p [a, b] = some a)) ∧
      (5 ≤ |vDist p b - vDist p a| →
        (vDist p b < vDist p a → findNearestAnchor p [a, b] = some b) ∧
        (vDist p a < vDist p b → findNearestAnchor p [a, b] = some a))) ∧
    groupByRowCaptain
        [⟨some "Med Name", ⟨0, 100, 0, 0⟩, 1, none⟩,
         ⟨some "Med Name", ⟨0, 106, 0, 0⟩, 1, none⟩,
         ⟨some "Quantity", ⟨0, 103, 0, 0⟩, 9 / 10, none⟩] =
      Except.ok
        [⟨some "Medicine 1", none, some "1", none, none⟩,
         ⟨some "Medicine 2", none, none, none, none⟩] := by
  constructor
  · intro p a b
    have hgoal : findNearestAnchor p [a, b] =
        (if |vDist p b - vDist p a| < 5 then
          (if getVerticalCenter b.bbox < getVerticalCenter a.bbox then some b else some a)
        else if vDist p b < vDist p a then some b else some a) := by
      simp only [findNearestAnchor, List.foldl_cons, List.foldl_nil, vDist]
      split_ifs <;> rfl
    rw [hgoal]
    constructor
    · intro htie
      rw [if_pos htie]
      constructor
      · intro hlt
        rw [if_pos hlt]
      · intro hge
        rw [if_neg (not_lt.mpr hge)]
    · intro hfar
      rw [if_neg (not_lt.mpr hfar)]
      constructor
      · intro hlt
        rw [if_pos hlt]
      · intro hgt
        rw [if_neg (by linarith)]
  · rfl

/-- Claim C4 witness: the concrete tie of the claim, using the general
two-anchor part of the theorem. -/
theorem c4_nearest_assignment_witness :
    (|vDist (⟨some "Quantity", ⟨0, 103, 0, 0⟩, 9 / 10, none⟩ : Prediction)
        (⟨some "Med Name", ⟨0, 106, 0, 0⟩, 1, none⟩ : Prediction) -
      vDist (⟨some "Quantity", ⟨0, 103, 0, 0⟩, 9 / 10, none⟩ : Prediction)
        (⟨some "Med Name", ⟨0, 100, 0, 0⟩, 1, none⟩ : Prediction)| < 5) ∧
    findNearestAnchor (⟨some "Quantity", ⟨0, 103, 0, 0⟩, 9 / 10, none⟩ : Prediction)
        [⟨some "Med Name", ⟨0, 100, 0, 0⟩, 1, none⟩,
         ⟨some "Med Name", ⟨0, 106, 0, 0⟩, 1, none⟩] =
      some ⟨some "Med Name", ⟨0, 100, 0, 0⟩, 1, none⟩ := by
  refine ⟨by decide, ?_⟩
  exact ((c4_nearest_assignment.1
    (⟨some "Quantity", ⟨0, 103, 0, 0⟩, 9 / 10, none⟩ : Prediction)
    (⟨some "Med Name", ⟨0, 100, 0, 0⟩, 1, none⟩ : Prediction)
    (⟨some "Med Name", ⟨0, 106, 0, 0⟩, 1, none⟩ : Prediction)).1 (by decide)).2 (by decide)

/-- Claim C5, counterexample: two Quantity candidates whose confidences
0.02 and 0.01 differ by EXACTLY 0.01 - not less than 0.01 - with the
lower-confidence candidate further left.  The comparator falls into the
x tie-break only when the difference exceeds 0.01 is false, i.e. already
at a difference of exactly 0.01, so the leftmost, lower-confidence
candidate (value "B") wins where the claim prescribes the
highest-confidence one (value "A").  With two candidates the comparator
is antisymmetric, so every ECMAScript-conforming sort produces this
order.  (The boundary is reachable in IEEE-754 doubles too: 0.02 is
exactly twice the double 0.01, so 0.02 - 0.01 equals 0.01 exactly.) -/
theorem c5_counterexample :
    groupByRowCaptain
        [⟨some "Med Name", ⟨0, 0, 0, 0⟩, 1, none⟩,
         ⟨some "Quantity", ⟨100, 0, 0, 0⟩, 2 / 100, some "A"⟩,
         ⟨some "Quantity", ⟨0, 0, 0, 0⟩, 1 / 100, some "B"⟩] =
      Except.ok [⟨some "Medicine 1", none, some "B", none, none⟩] ∧
    (2 : Rat) / 100 - 1 / 100 = 1 / 100 := by
  constructor
  · rfl
  · norm_num

/-- Claim C5 (amended): for a slot with exactly two candidates, the
higher-confidence candidate wins when the confidences differ by more
than 0.01; when they differ by at most 0.01 (including exactly 0.01) the
candidate with smaller x wins. -/
theorem c5_two_candidate_winner (a b : Prediction) :
    (1 / 100 < |a.confidence - b.confidence| →
      (b.confidence < a.confidence → pickFieldWinner [a, b] = some a) ∧
      (a.confidence < b.confidence → pickFieldWinner [a, b] = some b)) ∧
    (|a.confidence - b.confidence| ≤ 1 / 100 →
      (a.bbox.x ≤ b.bbox.x → pickFieldWinner [a, b] = some a) ∧
      (b.bbox.x < a.bbox.x → pickFieldWinner [a, b] = some b)) := by
  have hpick : pickFieldWinner [a, b] =
      (if confPosCmp b a < 0 then some b else some a) := by
    simp only [pickFieldWinner, jsSort, List.foldl_cons, List.foldl_nil, insertCmp]
    split_ifs <;> rfl
  rw [hpick]
  simp only [confPosCmp]
  constructor
  · intro hgap
    constructor
    · intro hba
      rw [if_neg]
      rw [if_pos hgap]
      linarith
    · intro hab
      rw [if_pos]
      rw [if_pos hgap]
      linarith
  · intro hclose
    constructor
    · intro hx
      rw [if_neg]
      rw [if_neg (not_lt.mpr hclose)]
      linarith
    · intro hx
      rw [if_pos]
      rw [if_neg (not_lt.mpr hclose)]
      linarith

/-- Claim C5 witness: two candidates 0.2 apart in confidence, the more
confident one wins by the first part of the theorem. -/
theorem c5_two_candidate_winner_witness :
    ((1 : Rat) / 100 <
      |(⟨some "Quantity", ⟨5, 0, 0, 0⟩, 3 / 10, none⟩ : Prediction).confidence -
        (⟨some "Quantity", ⟨0, 0, 0, 0⟩, 1 / 10, none⟩ : Prediction).confidence|) ∧
    pickFieldWinner
        [⟨some "Quantity", ⟨5, 0, 0, 0⟩, 3 / 10, none⟩,
         ⟨some "Quantity", ⟨0, 0, 0, 0⟩, 1 / 10, none⟩] =
      some ⟨some "Quantity", ⟨5, 0, 0, 0⟩, 3 / 10, none⟩ := by
  refine ⟨by decide, ?_⟩
  exact ((c5_two_candidate_winner
    (⟨some "Quantity", ⟨5, 0, 0, 0⟩, 3 / 10, none⟩ : Prediction)
    (⟨some "Quantity", ⟨0, 0, 0, 0⟩, 1 / 10, none⟩ : Prediction)).1 (by decide)).1 (by decide)

/-- Claim C6, counterexample: a Quantity detection whose extractedValue is
PRESENT but equal to the empty string.  The source tests the value with
JavaScript truthiness, so the empty string is treated as absent and the
slot receives the placeholder "1" instead of the present value. -/
theorem c6_counterexample :
    groupByRowCaptain
        [⟨some "Med Name", ⟨0, 0, 0, 0⟩, 1, none⟩,
         ⟨some "Quantity", ⟨0, 0, 0, 0⟩, 9 / 10, some ""⟩] =
      Except.ok [⟨some "Medicine 1", none, some "1", none, none⟩] := by
  rfl

/-- Claim C6 (amended): for a non-medicineName slot the winning detection
contributes its extractedValue when it is present AND non-empty;
otherwise (absent or empty value) the slot-specific placeholder applies:
quantity "1", amount "0", hsnCode "3004", batchExp the raw class label;
and a full pipeline run without values produces exactly those
placeholders. -/
theorem c6_value_or_placeholder :
    (∀ (w : Prediction) (f : Field), f ≠ Field.medName →
      (∀ v, w.value = some v → v ≠ "" → fillValue f w = v) ∧
      ((w.value = none ∨ w.value = some "") →
        fillValue f w = (match f with
          | Field.quantity => "1"
          | Field.amount => "0"
          | Field.hsnCode => "3004"
          | _ => rawCls w))) ∧
    groupByRowCaptain
        [⟨some "Med Name", ⟨0, 0, 0, 0⟩, 1, none⟩,
         ⟨some "Batch Exp", ⟨0, 0, 0, 0⟩, 1 / 2, none⟩,
         ⟨some "Quantity", ⟨1, 0, 0, 0⟩, 1 / 2, none⟩,
         ⟨some "Amount", ⟨2, 0, 0, 0⟩, 1 / 2, none⟩,
         ⟨some "HSN Code", ⟨3, 0, 0, 0⟩, 1 / 2, none⟩] =
      Except.ok [⟨some "Medicine 1", some "Batch Exp", some "1", some "3004", some "0"⟩] := by
  constructor
  · intro w f hf
    constructor
    · intro v hv hne
      simp [fillValue, hv, hne]
    · intro hcase
      rcases hcase with h | h
      · simp only [fillValue, h]
        cases f <;> simp [placeholderValue]
      · simp only [fillValue, h]
        cases f <;> simp [placeholderValue]
  · rfl

/-- Claim C6 witness: a Quantity winner with the non-empty value "5"
contributes that value. -/
theorem c6_value_or_placeholder_witness :
    (Field.quantity ≠ Field.medName) ∧
    fillValue Field.quantity ⟨some "Quantity", ⟨0, 0, 0, 0⟩, 9 / 10, some "5"⟩ = "5" :=
  ⟨by decide,
    (c6_value_or_placeholder.1 ⟨some "Quantity", ⟨0, 0, 0, 0⟩, 9 / 10, some "5"⟩
      Field.quantity (by decide)).1 "5" rfl (by decide)⟩

/-- Claim C7, counterexample: the label "Medicine Name" is mapped to the
medicineName slot by the Field Classifier, yet it is NOT skipped by the
metadata scan (the skip test only checks the five canonical substrings)
and it fills customerName via the substring pattern "name". -/
theorem c7_counterexample :
    getFieldName "Medicine Name" = some Field.medName ∧
    extractMetadata [⟨some "Medicine Name", ⟨0, 0, 0, 0⟩, 1, none⟩] =
      ⟨some "Medicine Name", none, none, none, none, none⟩ :=
  ⟨rfl, rfl⟩

/-- Claim C7 (amended): every filled metadata field takes the raw class
label of some input detection that is not medicine-related in the sense
of the scan skip test (normalized label contains none of the five
canonical substrings) and whose label matches the field patterns; and a
metadata field, once filled, is never overwritten by later steps of the
scan. -/
theorem c7_metadata_fill :
    (∀ (preds : List Prediction) (f : MetaField) (v : String),
      BillMetadata.get (extractMetadata preds) f = some v →
      ∃ p ∈ preds, rawCls p = v ∧ isMedicineRelated (rawCls p) = false ∧
        matchesMetadataField (rawCls p) f = true) ∧
    (∀ (l : List Prediction) (m : BillMetadata) (f : MetaField) (v : String),
      BillMetadata.get m f = some v →
      BillMetadata.get (l.foldl metaStep m) f = some v) := by
  constructor
  · intro preds f v h
    rcases foldl_metaStep_origin (jsSort confDescCmp preds) emptyMetadata f v h with
      hempty | ⟨p, hp, hrest⟩
    · rw [BillMetadata.get_emptyMetadata] at hempty
      exact absurd hempty (by simp)
    · exact ⟨p, (jsSort_perm confDescCmp preds).mem_iff.mp hp, hrest⟩
  · intro l m f v h
    exact foldl_metaStep_preserves l m f v h

/-- Claim C7 witness: a Customer Name detection fills customerName, and
the theorem recovers its origin. -/
theorem c7_metadata_fill_witness :
    BillMetadata.get
        (extractMetadata [⟨some "Customer Name", ⟨0, 0, 0, 0⟩, 1, none⟩])
        MetaField.customerName = some "Customer Name" ∧
    ∃ p ∈ [(⟨some "Customer Name", ⟨0, 0, 0, 0⟩, 1, none⟩ : Prediction)],
      rawCls p = "Customer Name" ∧ isMedicineRelated (rawCls p) = false ∧
        matchesMetadataField (rawCls p) MetaField.customerName = true :=
  ⟨rfl, c7_metadata_fill.1 [⟨some "Customer Name", ⟨0, 0, 0, 0⟩, 1, none⟩]
    MetaField.customerName "Customer Name" rfl⟩

/-- Claim C8: any detection whose label fills a metadata field is, by its
class, excluded from the medicine-only set (it matches a metadata
pattern without containing a canonical medicine substring), so no
detection contributes to both a Row and BillMetadata; and any detection
labeled "Customer Name" never appears in the filtered medicine set. -/
theorem c8_exclusivity :
    (∀ (preds : List Prediction) (f : MetaField) (v : String),
      BillMetadata.get (extractMetadata preds) f = some v →
      ∃ p ∈ preds, rawCls p = v ∧ p ∉ filterMedicinePredictions preds) ∧
    (∀ (preds : List Prediction) (p : Prediction), p ∈ preds →
      p.cls = some "Customer Name" → p ∉ filterMedicinePredictions preds) := by
  constructor
  · intro preds f v h
    rcases foldl_metaStep_origin (jsSort confDescCmp preds) emptyMetadata f v h with
      hempty | ⟨p, hp, hraw, hmed, hmatch⟩
    · rw [BillMetadata.get_emptyMetadata] at hempty
      exact absurd hempty (by simp)
    · refine ⟨p, (jsSort_perm confDescCmp preds).mem_iff.mp hp, hraw, ?_⟩
      intro hmemfil
      have hkeep : keepMedicineClass (rawCls p) = true := (List.mem_filter.mp hmemfil).2
      rw [keepMedicineClass_eq_false (rawCls p) f hmed hmatch] at hkeep
      exact Bool.false_ne_true hkeep
  · intro preds p hmem hcls hmemfil
    have hkeep : keepMedicineClass (rawCls p) = true := (List.mem_filter.mp hmemfil).2
    have hraw : rawCls p = "Customer Name" := by rw [rawCls, hcls]; rfl
    rw [hraw] at hkeep
    have hfalse : keepMedicineClass "Customer Name" = false := by decide
    rw [hfalse] at hkeep
    exact Bool.false_ne_true hkeep

/-- Claim C8 witness: the Customer Name detection fills customerName and
is excluded from the medicine set. -/
theorem c8_exclusivity_witness :
    BillMetadata.get
        (extractMetadata [⟨some "Customer Name", ⟨0, 0, 0, 0⟩, 2, none⟩])
        MetaField.customerName = some "Customer Name" ∧
    ∃ p ∈ [(⟨some "Customer Name", ⟨0, 0, 0, 0⟩, 2, none⟩ : Prediction)],
      rawCls p = "Customer Name" ∧
        p ∉ filterMedicinePredictions [⟨some "Customer Name", ⟨0, 0, 0, 0⟩, 2, none⟩] :=
  ⟨rfl, c8_exclusivity.1 [⟨some "Customer Name", ⟨0, 0, 0, 0⟩, 2, none⟩]
    MetaField.customerName "Customer Name" rfl⟩

/-- Claim C9, counterexample: a non-empty zero-anchor input holding a
detection with a missing class does not return one Row: the fallback
loop revisits the full original input and raises on the missing class. -/
theorem c9_counterexample :
    groupByRowCaptain
        [⟨none, ⟨0, 0, 0, 0⟩, 1 / 2, none⟩,
         ⟨some "Quantity", ⟨0, 1, 0, 0⟩, 1 / 2, none⟩] =
      Except.error "TypeError: undefined has no method trim" := by
  rfl

/-- Claim C9 (amended): when every detection carries a class label, a
non-empty zero-anchor input yields exactly one Row in which each slot
holds the raw class label of the FIRST detection classifying to that
slot (first writer wins), and the row is returned even when medicineName
stays null. -/
theorem c9_fallback (preds : List Prediction)
    (h0 : preds ≠ [])
    (h1 : ∀ p ∈ preds, p.cls ≠ none)
    (h2 : anchorsOf preds = []) :
    ∃ row, groupByRowCaptain preds = Except.ok [row] ∧
      ∀ f, Row.get row f =
        ((preds.find? (fun p => decide (getFieldName (rawCls p) = some f))).map rawCls) := by
  have hp : preds.isEmpty = false := by
    cases preds
    · exact absurd rfl h0
    · rfl
  refine ⟨preds.foldl fallbackApply emptyRow, ?_, ?_⟩
  · simp [groupByRowCaptain, hp, h2]
    rw [foldlM_fallback_ok preds emptyRow h1]
    rfl
  · intro f
    rw [foldl_fallbackApply_get preds emptyRow f, Row.get_emptyRow]

/-- Claim C9 witness: a single Quantity detection with no anchors, the
theorem applied directly. -/
theorem c9_fallback_witness :
    ([(⟨some "Quantity", ⟨0, 0, 0, 0⟩, 9 / 10, none⟩ : Prediction)] ≠ []) ∧
    (anchorsOf [(⟨some "Quantity", ⟨0, 0, 0, 0⟩, 9 / 10, none⟩ : Prediction)] = []) ∧
    ∃ row, groupByRowCaptain [(⟨some "Quantity", ⟨0, 0, 0, 0⟩, 9 / 10, none⟩ : Prediction)] =
      Except.ok [row] := by
  refine ⟨by decide, by decide, ?_⟩
  obtain ⟨row, hok, _⟩ := c9_fallback
    [(⟨some "Quantity", ⟨0, 0, 0, 0⟩, 9 / 10, none⟩ : Prediction)]
    (by decide) (by decide) (by decide)
  exact ⟨row, hok⟩

/-- Claim C10, counterexample: the label "quantity medname" classifies to
the medicineName slot WITHOUT being an anchor label, and it survives the
medicine filter (it contains "quantity"); with it as sole input the
zero-anchor fallback row gets a non-null medicineName, so extractBillData
returns one medicine and totalMedicines 1, not an empty list and 0. -/
theorem c10_counterexample :
    extractBillData [⟨"quantity medname", 0, 0, none, none, some (9 / 10), none⟩] =
      Except.ok ⟨[⟨some "quantity medname", none, none, none, none⟩], emptyMetadata, 1⟩ := by
  rfl

/-- Claim C10 (amended): if the medicine-filtered set contains no
anchor-class detection AND no detection whose label the Field Classifier
maps to the medicineName slot, then extractBillData returns an empty
medicines list and totalMedicines 0. -/
theorem c10_no_anchor_empty (input : List RawPrediction)
    (h1 : ∀ p ∈ filterMedicinePredictions (convertToBboxFormat input),
      isAnchorClass (rawCls p) = false)
    (h2 : ∀ p ∈ filterMedicinePredictions (convertToBboxFormat input),
      getFieldName (rawCls p) ≠ some Field.medName) :
    extractBillData input =
      Except.ok ⟨[], extractMetadata (convertToBboxFormat input), 0⟩ := by
  have hanch : anchorsOf (filterMedicinePredictions (convertToBboxFormat input)) = [] := by
    unfold anchorsOf
    rw [List.filter_eq_nil_iff]
    intro p hp
    simp [h1 p hp]
  have hcls : ∀ p ∈ filterMedicinePredictions (convertToBboxFormat input), p.cls ≠ none := by
    intro p hp
    have hpin : p ∈ convertToBboxFormat input := (List.mem_filter.mp hp).1
    rcases List.mem_map.mp hpin with ⟨r, hr, rfl⟩
    simp
  by_cases hnil : filterMedicinePredictions (convertToBboxFormat input) = []
  · simp only [extractBillData]
    rw [hnil]
    rfl
  · have hp : (filterMedicinePredictions (convertToBboxFormat input)).isEmpty = false := by
      rcases hc : filterMedicinePredictions (convertToBboxFormat input) with _ | ⟨q, qs⟩
      · exact absurd hc hnil
      · rfl
    have hfind : (filterMedicinePredictions (convertToBboxFormat input)).find?
        (fun p => decide (getFieldName (rawCls p) = some Field.medName)) = none := by
      rw [List.find?_eq_none]
      intro p hp2
      simp only [decide_eq_true_eq]
      exact h2 p hp2
    have hmednone : ((filterMedicinePredictions (convertToBboxFormat input)).foldl
        fallbackApply emptyRow).medName = none := by
      have hget := foldl_fallbackApply_get
        (filterMedicinePredictions (convertToBboxFormat input)) emptyRow Field.medName
      rw [Row.get_emptyRow, hfind] at hget
      exact hget
    have hok : groupByRowCaptain (filterMedicinePredictions (convertToBboxFormat input)) =
        Except.ok [(filterMedicinePredictions (convertToBboxFormat input)).foldl
          fallbackApply emptyRow] := by
      simp [groupByRowCaptain, hp, hanch]
      rw [foldlM_fallback_ok _ _ hcls]
      rfl
    simp only [extractBillData]
    rw [hok]
    simp [Except.map, hmednone]

/-- Claim C10 witness: a single Quantity raw record satisfies both
hypotheses and the extraction returns no medicines. -/
theorem c10_no_anchor_empty_witness :
    (∀ p ∈ filterMedicinePredictions (convertToBboxFormat
        [(⟨"Quantity", 0, 0, none, none, some (9 / 10), none⟩ : RawPrediction)]),
      isAnchorClass (rawCls p) = false) ∧
    extractBillData [(⟨"Quantity", 0, 0, none, none, some (9 / 10), none⟩ : RawPrediction)] =
      Except.ok ⟨[], extractMetadata (convertToBboxFormat
        [(⟨"Quantity", 0, 0, none, none, some (9 / 10), none⟩ : RawPrediction)]), 0⟩ :=
  ⟨by decide, c10_no_anchor_empty
    [(⟨"Quantity", 0, 0, none, none, some (9 / 10), none⟩ : RawPrediction)]
    (by decide) (by decide)⟩

end Medibill
